import Mathlib

set_option autoImplicit false

/-!
A verification development for the core of the PD placement driver.

The Go sources are embedded shallowly:
* `time.Time` values are modelled as `Int` wall-clock instants at millisecond
  granularity (the TSO physical component is defined in milliseconds and every
  comparison the embedded code performs is at millisecond precision);
  Go's zero `time.Time` (`typeutil.ZeroTime`) is the distinguished instant
  `ZeroTime` far in the past, exactly as in Go where it is year 1.
* the etcd-backed storage is modelled by threading the outcome of each
  `SaveTimestamp`/`save` call as an explicit `saveOk : Bool` (or
  `saveRes : Option String`) argument: the code under verification only
  branches on whether the save succeeded.
* stateful methods become pure functions `state → inputs → state × Option err`;
  an error result leaves the returned state exactly as the Go method leaves
  the shared state when it returns that error.
-/

namespace PD

/-- `typeutil.ZeroTime` (Go's `time.Time{}`, year 1) in Unix milliseconds. -/
def ZeroTime : Int := -62135596800000

/-- `updateTimestampGuard = time.Millisecond`, in milliseconds. -/
def updateTimestampGuard : Int := 1

/-- `maxLogical = int64(1 << 18)`. -/
def maxLogical : Int := 262144

/-- `typeutil.SubTSOPhysicalByWallClock` — modelled from the spec: the helper
is not among the provided sources; it returns the difference of the two
instants in milliseconds, which at millisecond granularity is subtraction. -/
def SubTSOPhysicalByWallClock (a b : Int) : Int := a - b

/-- `typeutil.SubRealTimeByWallClock` — modelled from the spec: the helper is
not among the provided sources; it returns the wall-clock duration between the
two instants, here in milliseconds. -/
def SubRealTimeByWallClock (a b : Int) : Int := a - b

/-- The in-memory TSO state guarded by `tsoMux`, together with the
`lastSavedTime` window recorded after each successful save
(`timestampOracle.lastSavedTime`, `ZeroTime` when unset). -/
structure TSOState where
  physical : Int
  logical : Int
  lastSavedTime : Int
  deriving Repr, DecidableEq

/-- `timestampOracle.setTSOPhysical`. -/
def setTSOPhysical (s : TSOState) (next : Int) (force : Bool) : TSOState :=
  -- Do not update the zero physical time if the `force` flag is false.
  if s.physical = ZeroTime ∧ force = false then s
  -- make sure the ts won't fall back
  else if SubTSOPhysicalByWallClock next s.physical > 0 then
    { s with physical := next, logical := 0 }
  else s

/-- `timestampOracle.isInitialized`. -/
def isInitialized (s : TSOState) : Bool := s.physical ≠ ZeroTime

/-- `timestampOracle.getTSO`. -/
def getTSO (s : TSOState) : Int × Int :=
  if s.physical = ZeroTime then (ZeroTime, 0) else (s.physical, s.logical)

/-- `timestampOracle.generateTSO`: adds `count` to the logical part and
returns the new TSO; returns `(0, 0)` when the in-memory physical time is the
zero time.  The second component of the result is the updated state. -/
def generateTSO (s : TSOState) (count : Int) : (Int × Int) × TSOState :=
  if s.physical = ZeroTime then ((0, 0), s)
  else ((s.physical, s.logical + count), { s with logical := s.logical + count })

/-- The common tail of `timestampOracle.updateTimestamp` once `next` is
chosen: extend the saved window if it is nearly consumed (saving
`next + saveInterval` to etcd, failing on a save error), then
`setTSOPhysical(next, false)`. -/
def updateTimestampSave (saveInterval : Int) (s : TSOState) (next : Int)
    (saveRes : Option String) : TSOState × Option String :=
  -- It is not safe to increase the physical time to `next`.
  -- The time window needs to be updated and saved to etcd.
  if SubRealTimeByWallClock s.lastSavedTime next ≤ updateTimestampGuard then
    match saveRes with
    | some err => (s, some err)
    | none =>
      let s1 := { s with lastSavedTime := next + saveInterval }
      (setTSOPhysical s1 next false, none)
  else
    (setTSOPhysical s next false, none)

/-- `timestampOracle.updateTimestamp`, the periodic physical-update tick.
`saveRes` is the outcome of the `saveTimestamp` call when one is attempted
(`none` = success).  The result pairs the final oracle state with the
returned error, mirroring that the Go method mutates nothing after a failed
save. -/
def updateTimestamp (saveInterval : Int) (s : TSOState) (now : Int)
    (saveRes : Option String) : TSOState × Option String :=
  if isInitialized s = false then
    (s, some "timestamp in memory has not been initialized")
  else
    let prevPhysical := (getTSO s).1
    let prevLogical := (getTSO s).2
    let jetLag := SubRealTimeByWallClock now prevPhysical
    -- If the system time is greater, it will be synchronized with the system time.
    if jetLag > updateTimestampGuard then
      updateTimestampSave saveInterval s now saveRes
    else if prevLogical > maxLogical / 2 then
      updateTimestampSave saveInterval s (prevPhysical + 1) saveRes
    else
      -- It will still use the previous physical time to alloc the timestamp.
      (s, none)

/-- `timestampOracle.syncTimestamp`.  `last` is the timestamp loaded from
storage (`ZeroTime` when nothing was persisted); `saveRes` is the outcome of
the `saveTimestamp` call. -/
def syncTimestamp (saveInterval : Int) (s : TSOState) (last : Int) (now : Int)
    (saveRes : Option String) : TSOState × Option String :=
  -- We could skip the synchronization if the timestamp in memory has been
  -- initialized and the last saved timestamps in etcd and in memory agree.
  if isInitialized s = true ∧ last ≠ ZeroTime ∧ s.lastSavedTime ≠ ZeroTime ∧
      SubRealTimeByWallClock last s.lastSavedTime = 0 then
    (s, none)
  else
    -- If the current system time minus the saved etcd timestamp is less than
    -- `UpdateTimestampGuard`, allocation starts from the saved etcd timestamp.
    let next := if SubRealTimeByWallClock now last < updateTimestampGuard
      then last + updateTimestampGuard else now
    let save := next + saveInterval
    match saveRes with
    | some err => (s, some err)
    | none =>
      let s1 := { s with lastSavedTime := save }
      (setTSOPhysical s1 next true, none)

/-- `tsoutil.ParseTS` — modelled from the spec: the helper is not among the
provided sources; a TSO packs the logical part in the low 18 bits and the
physical milliseconds above them. -/
def ParseTS (tso : Nat) : Int × Int := ((tso / 262144 : Nat), (tso % 262144 : Nat))

/-- `errs.NotLeaderErr` — modelled from the spec: the constant is not among
the provided sources; the spec's error taxonomy names the condition
`NotLeader`.  The claims under verification do not depend on its exact
wording. -/
def NotLeaderErr : String := "not leader"

/-- `timestampOracle.resetUserTimestamp`.  `serving` is
`t.member.IsServing()`; `saveRes` is the outcome of the `saveTimestamp` call
when one is attempted. -/
def resetUserTimestamp (saveInterval maxResetTSGap : Int) (s : TSOState)
    (serving : Bool) (tso : Nat) (ignoreSmaller skipUpperBoundCheck : Bool)
    (saveRes : Option String) : TSOState × Option String :=
  if serving = false then (s, some NotLeaderErr)
  else
    let nextPhysical := (ParseTS tso).1
    let nextLogical := (ParseTS tso).2
    let logicalDifference := nextLogical - s.logical
    let physicalDifference := SubTSOPhysicalByWallClock nextPhysical s.physical
    -- check if the TSO is initialized.
    if s.physical = ZeroTime then
      (s, some "timestamp in memory has not been initialized")
    -- do not update if next physical time is less/before than prev
    else if physicalDifference < 0 then
      if ignoreSmaller then (s, none)
      else (s, some "the specified ts is smaller than now")
    -- do not update if next logical time is less/before/equal than prev
    else if physicalDifference = 0 ∧ logicalDifference ≤ 0 then
      if ignoreSmaller then (s, none)
      else (s, some "the specified counter is smaller than now")
    -- do not update if physical time is too greater than prev
    else if skipUpperBoundCheck = false ∧ physicalDifference ≥ maxResetTSGap then
      (s, some "the specified ts is too larger than now")
    -- save into etcd only if nextPhysical is close to lastSavedTime
    else if SubRealTimeByWallClock s.lastSavedTime nextPhysical ≤ updateTimestampGuard then
      match saveRes with
      | some err => (s, some err)
      | none =>
        ({ physical := nextPhysical, logical := nextLogical,
           lastSavedTime := nextPhysical + saveInterval }, none)
    else
      -- save into memory only if nextPhysical or nextLogical is greater.
      ({ s with physical := nextPhysical, logical := nextLogical }, none)

/-- `maxRetryCount = 10`. -/
def maxRetryCount : Nat := 10

/-- One `getTS` retry iteration's view of the shared oracle: the state and
serving flag observed at the initial `getTSO`/`IsServing` check (`s1`,
`serving1`) and the ones observed at the later `generateTSO`/`IsServing`
step (`s2`, `serving2`).  Concurrent mutation between the two observations
is exactly what the mid-call checks of `getTS` guard against. -/
structure TryEnv where
  s1 : TSOState
  serving1 : Bool
  s2 : TSOState
  serving2 : Bool

/-- The retry loop of `timestampOracle.getTS`: iteration `i` observes
`env i`, and `fuel` is the number of remaining iterations (initially
`maxRetryCount`).  Falling off the loop yields the max-retries error. -/
def getTSAux (count : Int) (env : Nat → TryEnv) : Nat → Nat → Except String (Int × Int)
  | _, 0 => .error "generate tso maximum number of retries exceeded"
  | i, fuel + 1 =>
    let e := env i
    let currentPhysical := (getTSO e.s1).1
    if currentPhysical = ZeroTime then
      -- If it's leader, maybe SyncTimestamp hasn't completed yet
      if e.serving1 = true then getTSAux count env (i + 1) fuel
      else .error "timestamp in memory isn't initialized"
    else
      -- Get a new TSO result with the given count
      let res := (generateTSO e.s2 count).1
      if res.1 = 0 then .error "timestamp in memory has been reset"
      else if res.2 ≥ maxLogical then getTSAux count env (i + 1) fuel
      -- In case lease expired after the first check.
      else if e.serving2 = false then .error ("requested " ++ NotLeaderErr ++ " anymore")
      else .ok res

/-- `timestampOracle.getTS`. -/
def getTS (count : Nat) (env : Nat → TryEnv) : Except String (Int × Int) :=
  if count = 0 then .error "tso count should be positive"
  else getTSAux (count : Int) env 0 maxRetryCount

/-- C1: on an initialized oracle whose physical time is below the persisted
HWM, a `updateTimestamp` tick (with `saveInterval` at least the guard) keeps
`lastSavedTime` monotonically increasing, never regresses the physical time
(`setTSOPhysical` only ever moves it forward), and keeps the physical time
strictly below the persisted HWM; moreover the physical is advanced to `now`
when the wall clock is ahead by more than the guard, to `prevPhysical + 1 ms`
when the logical counter exceeds half of `2^18`, and otherwise the tick is a
no-op. -/
theorem updateTimestamp_monotonic (saveInterval : Int) (s : TSOState) (now : Int)
    (saveRes : Option String)
    (hInit : isInitialized s = true)
    (hBound : s.physical < s.lastSavedTime)
    (hGuard : updateTimestampGuard ≤ saveInterval) :
    s.lastSavedTime ≤ (updateTimestamp saveInterval s now saveRes).1.lastSavedTime ∧
    s.physical ≤ (updateTimestamp saveInterval s now saveRes).1.physical ∧
    (∀ (s' : TSOState) (next : Int) (force : Bool),
      s'.physical ≤ (setTSOPhysical s' next force).physical) ∧
    (updateTimestamp saveInterval s now saveRes).1.physical <
      (updateTimestamp saveInterval s now saveRes).1.lastSavedTime ∧
    (SubRealTimeByWallClock now s.physical > updateTimestampGuard →
      (updateTimestamp saveInterval s now saveRes).2 = none →
      (updateTimestamp saveInterval s now saveRes).1.physical = now ∧
      (updateTimestamp saveInterval s now saveRes).1.logical = 0) ∧
    (SubRealTimeByWallClock now s.physical ≤ updateTimestampGuard →
      s.logical > maxLogical / 2 →
      (updateTimestamp saveInterval s now saveRes).2 = none →
      (updateTimestamp saveInterval s now saveRes).1.physical = s.physical + 1 ∧
      (updateTimestamp saveInterval s now saveRes).1.logical = 0) ∧
    (SubRealTimeByWallClock now s.physical ≤ updateTimestampGuard →
      s.logical ≤ maxLogical / 2 →
      updateTimestamp saveInterval s now saveRes = (s, none)) := by
  have hforward : ∀ (s' : TSOState) (next : Int) (force : Bool),
      s'.physical ≤ (setTSOPhysical s' next force).physical := by
    intro s' next force
    simp only [setTSOPhysical, SubTSOPhysicalByWallClock]
    split_ifs with h1 h2
    · exact le_refl _
    · simp only
      omega
    · exact le_refl _
  have hphys : ¬ s.physical = ZeroTime := by
    simp only [isInitialized, ne_eq, decide_eq_true_eq] at hInit
    exact hInit
  cases saveRes with
  | none =>
    simp only [updateTimestamp, updateTimestampSave, setTSOPhysical, getTSO, isInitialized,
      SubRealTimeByWallClock, SubTSOPhysicalByWallClock, updateTimestampGuard,
      maxLogical, hphys, if_false, ne_eq, decide_eq_true_eq, decide_eq_false_iff_not,
      not_false_eq_true, if_true] at *
    split_ifs <;> simp_all <;> omega
  | some err =>
    simp only [updateTimestamp, updateTimestampSave, setTSOPhysical, getTSO, isInitialized,
      SubRealTimeByWallClock, SubTSOPhysicalByWallClock, updateTimestampGuard,
      maxLogical, hphys, if_false, ne_eq, decide_eq_true_eq, decide_eq_false_iff_not,
      not_false_eq_true, if_true] at *
    split_ifs <;> simp_all <;> omega

/-- C1 witness: the tick at a concrete initialized state. -/
theorem updateTimestamp_monotonic_witness :
    isInitialized ⟨1000, 0, 4000⟩ = true ∧ (1000 : Int) < 4000 ∧
      updateTimestampGuard ≤ (3000 : Int) ∧
      (3000 : Int) ≤ (updateTimestamp 3000 ⟨1000, 0, 4000⟩ 2000 none).1.lastSavedTime :=
  ⟨by decide, by decide, by decide,
    le_trans (by decide)
      (updateTimestamp_monotonic 3000 ⟨1000, 0, 4000⟩ 2000 none (by decide) (by decide)
        (by decide)).1⟩

/-- C2: after becoming leader (the in-memory TSO still uninitialized),
`syncTimestamp` with loaded HWM `last` chooses `next = max(now, last + guard)`,
persists `next + saveInterval` as the new HWM, and sets the in-memory TSO to
`physical = next`, `logical = 0`; when saving fails the in-memory TSO is not
modified. -/
theorem syncTimestamp_spec (saveInterval : Int) (s : TSOState) (last now : Int)
    (hUninit : s.physical = ZeroTime) (hNow : ZeroTime < now) :
    (syncTimestamp saveInterval s last now none).1.physical =
      max now (last + updateTimestampGuard) ∧
    (syncTimestamp saveInterval s last now none).1.logical = 0 ∧
    (syncTimestamp saveInterval s last now none).1.lastSavedTime =
      max now (last + updateTimestampGuard) + saveInterval ∧
    (syncTimestamp saveInterval s last now none).2 = none ∧
    (∀ err, syncTimestamp saveInterval s last now (some err) = (s, some err)) := by
  have hninit : isInitialized s = false := by
    simp [isInitialized, hUninit]
  simp only [syncTimestamp, setTSOPhysical, hninit, SubRealTimeByWallClock,
    SubTSOPhysicalByWallClock, updateTimestampGuard, ZeroTime] at *
  norm_num
  split_ifs <;> simp_all <;> omega

/-- C2 witness: syncing at a concrete fresh-leader state. -/
theorem syncTimestamp_spec_witness :
    (⟨ZeroTime, 0, ZeroTime⟩ : TSOState).physical = ZeroTime ∧ ZeroTime < (500 : Int) ∧
      (syncTimestamp 3000 ⟨ZeroTime, 0, ZeroTime⟩ 499 500 none).1.physical =
        max 500 (499 + updateTimestampGuard) :=
  ⟨rfl, by decide,
    (syncTimestamp_spec 3000 ⟨ZeroTime, 0, ZeroTime⟩ 499 500 rfl (by decide)).1⟩

/-- C3: `resetUserTimestamp` (with `ignoreSmaller = false` for the
smaller-rejections) rejects a physical decrease, an equal physical with
non-increasing logical, a forward jump reaching `maxResetTSGap` without
`skipUpperBoundCheck`, a non-serving caller, and an uninitialized in-memory
TSO, each with its specific error and without modifying the state; when all
checks pass it moves the in-memory TSO to the parsed `(physical, logical)`
and persists `nextPhysical + saveInterval` as the new HWM exactly when
`lastSavedTime − nextPhysical ≤ guard` (leaving the HWM untouched
otherwise, and leaving everything untouched when that save fails). -/
theorem resetUserTimestamp_spec (saveInterval maxResetTSGap : Int) (s : TSOState)
    (tso : Nat) (skipUpperBoundCheck : Bool) (np nl : Int)
    (hnp : np = (ParseTS tso).1) (hnl : nl = (ParseTS tso).2) :
    (∀ ig sk sv, resetUserTimestamp saveInterval maxResetTSGap s false tso ig sk sv =
      (s, some NotLeaderErr)) ∧
    (s.physical = ZeroTime → ∀ ig sk sv,
      resetUserTimestamp saveInterval maxResetTSGap s true tso ig sk sv =
        (s, some "timestamp in memory has not been initialized")) ∧
    (s.physical ≠ ZeroTime → np < s.physical → ∀ sk sv,
      resetUserTimestamp saveInterval maxResetTSGap s true tso false sk sv =
        (s, some "the specified ts is smaller than now")) ∧
    (s.physical ≠ ZeroTime → np = s.physical → nl ≤ s.logical → ∀ sk sv,
      resetUserTimestamp saveInterval maxResetTSGap s true tso false sk sv =
        (s, some "the specified counter is smaller than now")) ∧
    (s.physical ≠ ZeroTime → s.physical < np ∨ (np = s.physical ∧ s.logical < nl) →
      np - s.physical ≥ maxResetTSGap → ∀ ig sv,
      resetUserTimestamp saveInterval maxResetTSGap s true tso ig false sv =
        (s, some "the specified ts is too larger than now")) ∧
    (s.physical ≠ ZeroTime → s.physical < np ∨ (np = s.physical ∧ s.logical < nl) →
      (skipUpperBoundCheck = true ∨ np - s.physical < maxResetTSGap) →
      s.lastSavedTime - np > updateTimestampGuard → ∀ ig sv,
      resetUserTimestamp saveInterval maxResetTSGap s true tso ig skipUpperBoundCheck sv =
        ({ s with physical := np, logical := nl }, none)) ∧
    (s.physical ≠ ZeroTime → s.physical < np ∨ (np = s.physical ∧ s.logical < nl) →
      (skipUpperBoundCheck = true ∨ np - s.physical < maxResetTSGap) →
      s.lastSavedTime - np ≤ updateTimestampGuard → ∀ ig,
      resetUserTimestamp saveInterval maxResetTSGap s true tso ig skipUpperBoundCheck none =
        ({ physical := np, logical := nl, lastSavedTime := np + saveInterval }, none) ∧
      ∀ err, resetUserTimestamp saveInterval maxResetTSGap s true tso ig
          skipUpperBoundCheck (some err) = (s, some err)) := by
  refine ⟨?_, ?_, ?_, ?_, ?_, ?_, ?_⟩ <;>
    simp only [resetUserTimestamp, SubTSOPhysicalByWallClock, SubRealTimeByWallClock,
      updateTimestampGuard, ne_eq]
  · intro ig sk sv
    simp
  · intro h ig sk sv
    simp [h]
  · intro hinit hlt sk sv
    rw [if_neg (by simp), if_neg hinit, if_pos (by omega)]
    simp
  · intro hinit heq hle sk sv
    rw [if_neg (by simp), if_neg hinit, if_neg (by omega), if_pos (by omega)]
    simp
  · intro hinit hgt hgap ig sv
    rw [if_neg (by simp), if_neg hinit, if_neg (by omega), if_neg (by omega),
      if_pos (by exact ⟨by simp, by omega⟩)]
  · intro hinit hgt hub hfar ig sv
    rw [if_neg (by simp), if_neg hinit, if_neg (by omega), if_neg (by omega),
      if_neg (by rintro ⟨hsk, hge⟩; rw [← hnp] at hge; rcases hub with h | h; (rw [h] at hsk; exact Bool.noConfusion hsk); omega), if_neg (by omega)]
    simp [hnp, hnl]
  · intro hinit hgt hub hnear ig
    rw [if_neg (by simp), if_neg hinit, if_neg (by omega), if_neg (by omega),
      if_neg (by rintro ⟨hsk, hge⟩; rw [← hnp] at hge; rcases hub with h | h; (rw [h] at hsk; exact Bool.noConfusion hsk); omega), if_pos (by omega)]
    constructor
    · simp [hnp, hnl]
    · intro err
      rw [if_neg (by simp), if_neg hinit, if_neg (by omega), if_neg (by omega),
        if_neg (by rintro ⟨hsk, hge⟩; rw [← hnp] at hge; rcases hub with h | h; (rw [h] at hsk; exact Bool.noConfusion hsk); omega), if_pos (by omega)]

/-- C3 witness: a non-serving caller is rejected with the not-leader error,
and a valid forward reset at a concrete state moves the TSO and persists
`nextPhysical + saveInterval` (the parsed TSO `1310727` is
`(physical 5, logical 7)`). -/
theorem resetUserTimestamp_spec_witness :
    (5 : Int) = (ParseTS 1310727).1 ∧ (7 : Int) = (ParseTS 1310727).2 ∧
    resetUserTimestamp 3000 100 ⟨1, 0, 5⟩ false 1310727 false false none =
      (⟨1, 0, 5⟩, some NotLeaderErr) ∧
    resetUserTimestamp 3000 100 ⟨1, 0, 5⟩ true 1310727 false false none =
      (⟨5, 7, 5 + 3000⟩, none) :=
  ⟨by decide, by decide,
    (resetUserTimestamp_spec 3000 100 ⟨1, 0, 5⟩ 1310727 false 5 7
      (by decide) (by decide)).1 false false none,
    ((resetUserTimestamp_spec 3000 100 ⟨1, 0, 5⟩ 1310727 false 5 7
      (by decide) (by decide)).2.2.2.2.2.2 (by decide) (Or.inl (by decide))
      (Or.inr (by decide)) (by decide) false).1⟩

/-- The condition under which one `getTS` retry iteration falls through to
the next attempt: either the first observation sees the zero time while the
member is still serving (`SyncTimestamp` may not have completed yet), or the
freshly generated TSO overflows the logical range. -/
def tryContinues (e : TryEnv) (count : Int) : Prop :=
  ((getTSO e.s1).1 = ZeroTime ∧ e.serving1 = true) ∨
  ((getTSO e.s1).1 ≠ ZeroTime ∧ (generateTSO e.s2 count).1.1 ≠ 0 ∧
    (generateTSO e.s2 count).1.2 ≥ maxLogical)

theorem getTSAux_step_continue (count : Int) (env : Nat → TryEnv) (i fuel : Nat)
    (h : tryContinues (env i) count) :
    getTSAux count env i (fuel + 1) = getTSAux count env (i + 1) fuel := by
  rcases h with ⟨h1, h2⟩ | ⟨h1, h2, h3⟩
  · simp [getTSAux, h1, h2]
  · simp [getTSAux, h1, h2, h3]

theorem getTSAux_reach (count : Int) (env : Nat → TryEnv) :
    ∀ (k i fuel : Nat), (∀ j, j < k → tryContinues (env (i + j)) count) →
    getTSAux count env i (fuel + k) = getTSAux count env (i + k) fuel := by
  intro k
  induction k with
  | zero =>
    intro i fuel _
    simp
  | succ m ih =>
    intro i fuel hc
    have h0 : tryContinues (env i) count := by simpa using hc 0 (Nat.succ_pos m)
    have step : getTSAux count env i (fuel + (m + 1)) = getTSAux count env (i + 1) (fuel + m) := by
      rw [show fuel + (m + 1) = (fuel + m) + 1 by omega]
      exact getTSAux_step_continue count env i (fuel + m) h0
    rw [step, ih (i + 1) fuel (fun j hj => by
      have := hc (j + 1) (by omega)
      rw [show i + 1 + j = i + (j + 1) by omega]
      exact this)]
    rw [show i + 1 + m = i + (m + 1) by omega]

theorem getTSAux_ok_logical_lt (count : Int) (env : Nat → TryEnv) :
    ∀ (fuel i : Nat) (p l : Int),
      getTSAux count env i fuel = .ok (p, l) → l < maxLogical := by
  intro fuel
  induction fuel with
  | zero =>
    intro i p l h
    simp [getTSAux] at h
  | succ m ih =>
    intro i p l h
    simp only [getTSAux] at h
    split_ifs at h with h1 h2 h3 h4 h5 <;>
    first
      | exact ih (i + 1) p l h
      | exact Except.noConfusion h
      | (injection h with h'
         rw [h'] at h4
         simp only [ge_iff_le, not_le] at h4
         omega)

/-- C4 (amended): `getTS` fails with a generate-timestamp error exactly when
`count = 0`; or the first attempt that is not skipped by a retry sees an
uninitialized in-memory timestamp while the member is not serving; or it sees
the oracle reset between the initialization check and `generateTSO`; or the
member stops serving between the overflow check and the return; or all 10
retries fall through (each either waiting for `SyncTimestamp` while serving,
or overflowing the logical counter); otherwise the attempt returns a
timestamp whose logical part is below `2^18`.  Here `k` is the index of the
first attempt that does not fall through (`hreach`). -/
theorem getTS_spec (count : Nat) (env : Nat → TryEnv) (k : Nat)
    (hcount : count ≠ 0) (hk : k < maxRetryCount)
    (hreach : ∀ j, j < k → tryContinues (env j) (count : Int)) :
    (∀ env0, getTS 0 env0 = .error "tso count should be positive") ∧
    ((getTSO (env k).s1).1 = ZeroTime → (env k).serving1 = false →
      getTS count env = .error "timestamp in memory isn't initialized") ∧
    ((getTSO (env k).s1).1 ≠ ZeroTime → (generateTSO (env k).s2 (count : Int)).1.1 = 0 →
      getTS count env = .error "timestamp in memory has been reset") ∧
    ((getTSO (env k).s1).1 ≠ ZeroTime → (generateTSO (env k).s2 (count : Int)).1.1 ≠ 0 →
      (generateTSO (env k).s2 (count : Int)).1.2 < maxLogical →
      (env k).serving2 = false →
      getTS count env = .error ("requested " ++ NotLeaderErr ++ " anymore")) ∧
    ((getTSO (env k).s1).1 ≠ ZeroTime → (generateTSO (env k).s2 (count : Int)).1.1 ≠ 0 →
      (generateTSO (env k).s2 (count : Int)).1.2 < maxLogical →
      (env k).serving2 = true →
      getTS count env = .ok ((generateTSO (env k).s2 (count : Int)).1)) ∧
    ((∀ j, j < maxRetryCount → tryContinues (env j) (count : Int)) →
      getTS count env = .error "generate tso maximum number of retries exceeded") ∧
    (∀ p l, getTS count env = .ok (p, l) → l < maxLogical) := by
  have hget : getTS count env = getTSAux (count : Int) env 0 maxRetryCount := by
    simp [getTS, hcount]
  have hreachK : getTSAux (count : Int) env 0 maxRetryCount =
      getTSAux (count : Int) env k (maxRetryCount - k) := by
    have := getTSAux_reach (count : Int) env k 0 (maxRetryCount - k)
      (fun j hj => by simpa using hreach j hj)
    rw [show maxRetryCount - k + k = maxRetryCount by omega] at this
    simpa using this
  have hfuel : maxRetryCount - k = (maxRetryCount - k - 1) + 1 := by
    have : 0 < maxRetryCount - k := by omega
    omega
  refine ⟨?_, ?_, ?_, ?_, ?_, ?_, ?_⟩
  · intro env0
    simp [getTS]
  · intro h1 h2
    rw [hget, hreachK, hfuel, getTSAux]
    simp [h1, h2]
  · intro h1 h2
    rw [hget, hreachK, hfuel, getTSAux]
    simp [h1, h2]
  · intro h1 h2 h3 h4
    rw [hget, hreachK, hfuel, getTSAux]
    simp only [h1, if_false, h2, h4]
    rw [if_neg (by omega)]
    simp
  · intro h1 h2 h3 h4
    rw [hget, hreachK, hfuel, getTSAux]
    simp only [h1, if_false, h2, h4]
    rw [if_neg (by omega)]
    simp
  · intro hall
    rw [hget]
    have := getTSAux_reach (count : Int) env maxRetryCount 0 0
      (fun j hj => by simpa using hall j hj)
    simp only [Nat.zero_add] at this
    rw [this]
    rfl
  · intro p l h
    rw [hget] at h
    exact getTSAux_ok_logical_lt (count : Int) env maxRetryCount 0 p l h

/-- A concrete single-attempt environment: the oracle is initialized and the
generated logical part is small, but the lease is lost right after the
overflow check. -/
def envLeaseLost : Nat → TryEnv := fun _ =>
  { s1 := ⟨1, 0, 5⟩, serving1 := true, s2 := ⟨1, 0, 5⟩, serving2 := false }

/-- C4 counterexample: with `count = 1` and `envLeaseLost`, none of the
claim's four failure conditions holds — the count is positive, the in-memory
timestamp is initialized, the oracle is not reset mid-call, and the logical
counter stays far below `2^18` on the very first attempt — yet `getTS` fails
(the member stopped serving between the overflow check and the return), so
the claimed "exactly when" enumeration is incomplete. -/
theorem getTS_claim_counterexample :
    getTS 1 envLeaseLost = .error ("requested " ++ NotLeaderErr ++ " anymore") ∧
    (1 : Nat) ≠ 0 ∧
    (getTSO (envLeaseLost 0).s1).1 ≠ ZeroTime ∧
    (generateTSO (envLeaseLost 0).s2 1).1.1 ≠ 0 ∧
    (generateTSO (envLeaseLost 0).s2 1).1.2 < maxLogical ∧
    ("requested " ++ NotLeaderErr ++ " anymore") ≠ "tso count should be positive" ∧
    ("requested " ++ NotLeaderErr ++ " anymore") ≠ "timestamp in memory isn't initialized" ∧
    ("requested " ++ NotLeaderErr ++ " anymore") ≠ "timestamp in memory has been reset" ∧
    ("requested " ++ NotLeaderErr ++ " anymore") ≠
      "generate tso maximum number of retries exceeded" := by
  refine ⟨rfl, by decide, by decide, by decide, by decide, ?_, ?_, ?_, ?_⟩ <;> decide

/-- C4 witness: the amended characterization applied to the concrete
lease-lost environment at attempt 0. -/
theorem getTS_spec_witness :
    (1 : Nat) ≠ 0 ∧ 0 < maxRetryCount ∧
    getTS 1 envLeaseLost = .error ("requested " ++ NotLeaderErr ++ " anymore") :=
  ⟨by decide, by decide,
    (getTS_spec 1 envLeaseLost 0 (by decide) (by decide)
      (fun j hj => absurd hj (by omega))).2.2.2.1 (by decide) (by decide)
      (by decide) rfl⟩

/-- A request key range (`pdpb.KeyRange` / `keyutil.KeyRange`): byte-string
start and end keys, an empty end key meaning +∞. -/
structure KeyRange where
  startKey : List Nat
  endKey : List Nat
  deriving Repr, DecidableEq

/-- Go `bytes.Compare`: lexicographic comparison of byte slices (a proper
initial segment is smaller). -/
def bytesCompare : List Nat → List Nat → Ordering
  | [], [] => .eq
  | [], _ :: _ => .lt
  | _ :: _, [] => .gt
  | a :: as, b :: bs =>
    if a < b then .lt else if b < a then .gt else bytesCompare as bs

/-- The error type carried in a response header (`pdpb.ErrorType`). -/
inductive ErrType where
  | unknown
  | regionsNotContainAllKeyRange
  deriving Repr, DecidableEq

/-- A response header: `wrapHeader()` on success, `wrapErrorToHeader` on
failure. -/
inductive Header where
  | ok
  | err (etype : ErrType) (msg : String)
  deriving Repr, DecidableEq

/-- The per-range validation of `GrpcServer.BatchScanRegions` for the second
and later ranges (`prev` is the previous range): the overlap check against
`prev.endKey` comes first, then the reversed-range check. -/
def validateRangesAux (prev : KeyRange) : List KeyRange → Option String
  | [] => none
  | r :: rest =>
    if bytesCompare r.startKey prev.endKey = .lt then
      some "invalid key range, ranges overlapped"
    else if r.endKey.length > 0 ∧ bytesCompare r.startKey r.endKey = .gt then
      some "invalid key range, start key > end key"
    else validateRangesAux r rest

/-- The `for i, reqRange := range reqRanges` validation loop of
`GrpcServer.BatchScanRegions`: the first range skips the overlap check. -/
def validateRanges : List KeyRange → Option String
  | [] => none
  | r :: rest =>
    if r.endKey.length > 0 ∧ bytesCompare r.startKey r.endKey = .gt then
      some "invalid key range, start key > end key"
    else validateRangesAux r rest

/-- The failure modes of `RaftCluster.BatchScanRegions` — modelled from the
spec: the core scan is not among the provided sources; with the contain-all
option an incomplete cover fails with `ErrRegionNotAdjacent` ("output covers
all requested key ranges or fail with REGIONS_NOT_CONTAIN_ALL_KEY_RANGE"). -/
inductive CoreScanErr where
  | regionNotAdjacent (msg : String)
  | other (msg : String)
  deriving Repr, DecidableEq

/-- `GrpcServer.BatchScanRegions` after the middleware: validate the ranges
(first error wins), run the cluster scan (abstracted as `scan`, handed the
contain-all flag), and map `ErrRegionNotAdjacent` to the
REGIONS_NOT_CONTAIN_ALL_KEY_RANGE header error; scanned regions are returned
as opaque ids. -/
def BatchScanRegions (ranges : List KeyRange) (containAll : Bool)
    (scan : List KeyRange → Bool → Except CoreScanErr (List Nat)) :
    Header × List Nat :=
  match validateRanges ranges with
  | some msg => (.err .unknown msg, [])
  | none =>
    match scan ranges containAll with
    | .error (.regionNotAdjacent m) => (.err .regionsNotContainAllKeyRange m, [])
    | .error (.other m) => (.err .unknown m, [])
    | .ok regions => (.ok, regions)

/-- A range is reversed when its non-empty end key is smaller than its start
key (`len(EndKey) > 0 && bytes.Compare(StartKey, EndKey) > 0`). -/
def reversedRange (r : KeyRange) : Prop :=
  r.endKey.length > 0 ∧ bytesCompare r.startKey r.endKey = .gt

/-- Two consecutive ranges do not overlap when the second's start key is not
smaller than the first's end key. -/
def noOverlap (a b : KeyRange) : Prop :=
  bytesCompare b.startKey a.endKey ≠ .lt

instance (r : KeyRange) : Decidable (reversedRange r) :=
  inferInstanceAs (Decidable (r.endKey.length > 0 ∧ bytesCompare r.startKey r.endKey = .gt))

instance (a b : KeyRange) : Decidable (noOverlap a b) :=
  inferInstanceAs (Decidable (bytesCompare b.startKey a.endKey ≠ .lt))

theorem validateRangesAux_none (rs : List KeyRange) : ∀ (prev : KeyRange),
    validateRangesAux prev rs = none ↔
      ((∀ r ∈ rs, ¬ reversedRange r) ∧ List.Chain noOverlap prev rs) := by
  induction rs with
  | nil =>
    intro prev
    simp [validateRangesAux]
  | cons r rest ih =>
    intro prev
    simp only [validateRangesAux]
    split_ifs with h1 h2
    · simp only [false_iff, not_and]
      intro _ hchain
      rw [List.chain_cons] at hchain
      exact absurd h1 hchain.1
    · simp only [false_iff, not_and]
      intro hrev _
      exact absurd h2 (hrev r (List.mem_cons_self r rest))
    · rw [ih r]
      constructor
      · rintro ⟨hrev, hchain⟩
        refine ⟨?_, List.chain_cons.mpr ⟨h1, hchain⟩⟩
        intro x hx
        rcases List.mem_cons.mp hx with hx | hx
        · rw [hx]; exact h2
        · exact hrev x hx
      · rintro ⟨hrev, hchain⟩
        exact ⟨fun x hx => hrev x (List.mem_cons_of_mem r hx),
          (List.chain_cons.mp hchain).2⟩

theorem validateRangesAux_reversed (rs : List KeyRange) : ∀ (prev : KeyRange),
    (∃ r ∈ rs, reversedRange r) → List.Chain noOverlap prev rs →
    validateRangesAux prev rs = some "invalid key range, start key > end key" := by
  induction rs with
  | nil =>
    intro prev hex _
    simp at hex
  | cons r rest ih =>
    intro prev hex hchain
    rw [List.chain_cons] at hchain
    simp only [validateRangesAux]
    rw [if_neg hchain.1]
    by_cases h2 : r.endKey.length > 0 ∧ bytesCompare r.startKey r.endKey = .gt
    · rw [if_pos h2]
    · rw [if_neg h2]
      rcases hex with ⟨x, hx, hxrev⟩
      rcases List.mem_cons.mp hx with hx | hx
      · rw [hx] at hxrev
        exact absurd hxrev h2
      · exact ih r ⟨x, hx, hxrev⟩ hchain.2

theorem validateRangesAux_overlapped (rs : List KeyRange) : ∀ (prev : KeyRange),
    (∀ r ∈ rs, ¬ reversedRange r) → ¬ List.Chain noOverlap prev rs →
    validateRangesAux prev rs = some "invalid key range, ranges overlapped" := by
  induction rs with
  | nil =>
    intro prev _ hchain
    exact absurd List.Chain.nil hchain
  | cons r rest ih =>
    intro prev hrev hchain
    simp only [validateRangesAux]
    by_cases h1 : bytesCompare r.startKey prev.endKey = .lt
    · rw [if_pos h1]
    · rw [if_neg h1, if_neg (by exact hrev r (List.mem_cons_self r rest))]
      refine ih r (fun x hx => hrev x (List.mem_cons_of_mem r hx)) ?_
      intro hc
      exact hchain (List.chain_cons.mpr ⟨h1, hc⟩)

/-- C5: the range validation of `BatchScanRegions` accepts a request exactly
when it has no reversed range and no overlapping consecutive ranges; a
reversed range (with no overlap hiding it) yields the
"invalid key range, start key > end key" error, an overlap (with no reversed
range) yields "invalid key range, ranges overlapped", both surfaced as
UNKNOWN-typed header errors; and when validation passes but the cluster scan
reports `ErrRegionNotAdjacent` (incomplete cover under the
contain-all-key-range option) the response header error is
REGIONS_NOT_CONTAIN_ALL_KEY_RANGE. -/
theorem BatchScanRegions_validation :
    (∀ rs, validateRanges rs = none ↔
      ((∀ r ∈ rs, ¬ reversedRange r) ∧ List.Chain' noOverlap rs)) ∧
    (∀ rs, (∃ r ∈ rs, reversedRange r) → List.Chain' noOverlap rs →
      validateRanges rs = some "invalid key range, start key > end key") ∧
    (∀ rs, (∀ r ∈ rs, ¬ reversedRange r) → ¬ List.Chain' noOverlap rs →
      validateRanges rs = some "invalid key range, ranges overlapped") ∧
    (∀ rs ca scan msg, validateRanges rs = some msg →
      BatchScanRegions rs ca scan = (.err .unknown msg, [])) ∧
    (∀ rs ca scan m, validateRanges rs = none →
      scan rs ca = .error (.regionNotAdjacent m) →
      BatchScanRegions rs ca scan = (.err .regionsNotContainAllKeyRange m, [])) := by
  refine ⟨?_, ?_, ?_, ?_, ?_⟩
  · intro rs
    cases rs with
    | nil => simp [validateRanges]
    | cons r rest =>
      simp only [validateRanges]
      split_ifs with h2
      · constructor
        · intro h
          exact absurd h (by simp)
        · rintro ⟨hrev, _⟩
          exact absurd h2 (hrev r (List.mem_cons_self r rest))
      · rw [validateRangesAux_none rest r]
        constructor
        · rintro ⟨hrev, hchain⟩
          refine ⟨?_, hchain⟩
          intro x hx
          rcases List.mem_cons.mp hx with hx | hx
          · rw [hx]; exact h2
          · exact hrev x hx
        · rintro ⟨hrev, hchain⟩
          exact ⟨fun x hx => hrev x (List.mem_cons_of_mem r hx), hchain⟩
  · intro rs hex hchain
    cases rs with
    | nil => simp at hex
    | cons r rest =>
      simp only [validateRanges]
      by_cases h2 : r.endKey.length > 0 ∧ bytesCompare r.startKey r.endKey = .gt
      · rw [if_pos h2]
      · rw [if_neg h2]
        rcases hex with ⟨x, hx, hxrev⟩
        rcases List.mem_cons.mp hx with hx | hx
        · rw [hx] at hxrev
          exact absurd hxrev h2
        · exact validateRangesAux_reversed rest r ⟨x, hx, hxrev⟩ hchain
  · intro rs hrev hchain
    cases rs with
    | nil => exact absurd trivial hchain
    | cons r rest =>
      simp only [validateRanges]
      rw [if_neg (show ¬ (r.endKey.length > 0 ∧ bytesCompare r.startKey r.endKey = .gt) from
        hrev r (List.mem_cons_self r rest))]
      exact validateRangesAux_overlapped rest r
        (fun x hx => hrev x (List.mem_cons_of_mem r hx)) hchain
  · intro rs ca scan msg h
    simp [BatchScanRegions, h]
  · intro rs ca scan m h1 h2
    simp [BatchScanRegions, h1, h2]

/-- C5 witness: the spec's boundary examples — the reversed single range
`[(1,0)]` and the overlapping pair `[(0,2),(1,3)]`. -/
theorem BatchScanRegions_validation_witness :
    validateRanges [⟨[1], [0]⟩] = some "invalid key range, start key > end key" ∧
    validateRanges [⟨[0], [2]⟩, ⟨[1], [3]⟩] =
      some "invalid key range, ranges overlapped" :=
  ⟨BatchScanRegions_validation.2.1 [⟨[1], [0]⟩]
      ⟨⟨[1], [0]⟩, by decide, by decide⟩ (List.chain'_singleton _),
    BatchScanRegions_validation.2.2.1 [⟨[0], [2]⟩, ⟨[1], [3]⟩]
      (by decide) (by rw [List.chain'_pair]; decide)⟩

/-- A region peer (`metapb.Peer`), reduced to the store that hosts it. -/
structure Peer where
  storeId : Nat
  deriving Repr, DecidableEq

/-- The part of the `core.RegionInfo` built by `core.RegionFromHeartbeat`
that the leader's heartbeat loop validates: leader peer, region id, peer
list, plus the rendered region meta string used in the zero-peer error
message. -/
structure HBRegion where
  leader : Option Peer
  id : Nat
  peers : List Peer
  metaStr : String
  deriving Repr, DecidableEq

/-- What the region-heartbeat loop does with one request once the region is
constructed: either send an error of the given type back through the
heartbeat-response channel (`hbStreams.SendErr`) and continue with the next
request, or pass the region to `HandleRegionHeartbeat`. -/
inductive HBAction where
  | sendErr (etype : ErrType) (msg : String)
  | handle
  deriving Repr, DecidableEq

/-- The validation block of `GrpcServer.RegionHeartbeat` between
`core.RegionFromHeartbeat` and `rc.HandleRegionHeartbeat`; `reqStr` is the
request's `%v` rendering used in the first two messages. -/
def regionHeartbeatValidate (reqStr : String) (region : HBRegion) : HBAction :=
  match region.leader with
  | none => .sendErr .unknown ("invalid request leader, " ++ reqStr)
  | some _ =>
    if region.id = 0 then .sendErr .unknown ("invalid request region, " ++ reqStr)
    -- If the region peer count is 0, then we should not handle this.
    else if region.peers.length = 0 then
      .sendErr .unknown ("invalid region, zero region peer count: " ++ region.metaStr)
    else .handle

/-- C6: a heartbeat request whose constructed region has a nil leader peer, a
zero region id, or an empty peer list is never passed to
`HandleRegionHeartbeat` — instead an UNKNOWN-typed error is sent back through
the heartbeat-response channel, with the message
"invalid region, zero region peer count: …" in the empty-peer case — and the
region reaches `HandleRegionHeartbeat` exactly when all three checks pass. -/
theorem regionHeartbeatValidate_spec :
    (∀ reqStr region, (region.leader = none ∨ region.id = 0 ∨ region.peers = []) →
      regionHeartbeatValidate reqStr region ≠ HBAction.handle ∧
      ∃ msg, regionHeartbeatValidate reqStr region = .sendErr .unknown msg) ∧
    (∀ reqStr region, region.leader ≠ none → region.id ≠ 0 → region.peers = [] →
      regionHeartbeatValidate reqStr region =
        .sendErr .unknown ("invalid region, zero region peer count: " ++ region.metaStr)) ∧
    (∀ reqStr region, regionHeartbeatValidate reqStr region = HBAction.handle ↔
      (region.leader ≠ none ∧ region.id ≠ 0 ∧ region.peers ≠ [])) := by
  have hstep : ∀ (reqStr : String) (region : HBRegion),
      regionHeartbeatValidate reqStr region = HBAction.handle ↔
        (region.leader ≠ none ∧ region.id ≠ 0 ∧ region.peers ≠ []) := by
    intro reqStr region
    rcases region with ⟨leader, id, peers, metaStr⟩
    cases leader with
    | none => simp [regionHeartbeatValidate]
    | some p =>
      simp only [regionHeartbeatValidate]
      split_ifs with h1 h2 <;>
        simp_all [List.length_eq_zero]
  refine ⟨?_, ?_, hstep⟩
  · intro reqStr region hbad
    constructor
    · intro hh
      rcases (hstep reqStr region).mp hh with ⟨hl, hid, hp⟩
      rcases hbad with h | h | h
      · exact hl h
      · exact hid h
      · exact hp h
    · rcases region with ⟨leader, id, peers, metaStr⟩
      cases leader with
      | none => exact ⟨_, rfl⟩
      | some p =>
        simp only [regionHeartbeatValidate]
        split_ifs with h1 h2
        · exact ⟨_, rfl⟩
        · exact ⟨_, rfl⟩
        · rcases hbad with h | h | h
          · exact absurd h (by simp)
          · exact absurd h h1
          · exact absurd (by simpa using congrArg List.length h) h2
  · intro reqStr region hl hid hp
    rcases region with ⟨leader, id, peers, metaStr⟩
    cases leader with
    | none => exact absurd rfl hl
    | some p =>
      simp only [regionHeartbeatValidate]
      rw [if_neg hid, if_pos (by simp_all)]

/-- C6 witness: a region with a leader and a non-zero id but no peers is
answered with the zero-peer-count UNKNOWN error. -/
theorem regionHeartbeatValidate_spec_witness :
    regionHeartbeatValidate "req" ⟨some ⟨1⟩, 7, [], "meta"⟩ =
      .sendErr .unknown ("invalid region, zero region peer count: " ++ "meta") :=
  regionHeartbeatValidate_spec.2.1 "req" ⟨some ⟨1⟩, 7, [], "meta"⟩
    (by decide) (by decide) rfl

/-- The outcome of the underlying `stream.Send` attempt raced against the
fixed `heartbeatSendTimeout = 5 * time.Second` timer: completed without
error, completed with an error, or the timer fired first. -/
inductive SendOutcome where
  | ok
  | fail
  | timedOut
  deriving Repr, DecidableEq

/-- The outcome of an underlying `stream.Recv` call. -/
inductive RecvOutcome where
  | ok
  | fail
  deriving Repr, DecidableEq

/-- One operation on a `heartbeatServer` wrapper, with the outcome the
underlying gRPC stream would produce for it. -/
inductive HBOp where
  | send (o : SendOutcome)
  | recv (o : RecvOutcome)
  deriving Repr, DecidableEq

/-- The result the wrapper returns to its caller: success, `io.EOF` (wrapper
already closed), the wrapped stream error, or `ErrSendHeartbeatTimeout`. -/
inductive HBResult where
  | success
  | eof
  | streamErr
  | sendTimeout
  deriving Repr, DecidableEq

/-- `heartbeatServer.Send` / `heartbeatServer.Recv`: given the atomically
read `closed` flag and the operation's underlying outcome, return the new
flag and the result.  A closed wrapper returns `io.EOF` immediately; a
stream error or a send-deadline violation atomically sets `closed`. -/
def hbServerStep (closed : Bool) (op : HBOp) : Bool × HBResult :=
  if closed then (closed, .eof)
  else
    match op with
    | .send .ok => (closed, .success)
    | .send .fail => (true, .streamErr)
    | .send .timedOut => (true, .sendTimeout)
    | .recv .ok => (closed, .success)
    | .recv .fail => (true, .streamErr)

/-- Run a sequence of operations on one `heartbeatServer`, threading the
`closed` flag, and collect the results. -/
def hbServerRun (closed : Bool) : List HBOp → List HBResult
  | [] => []
  | op :: ops =>
    (hbServerStep closed op).2 :: hbServerRun (hbServerStep closed op).1 ops

theorem hbServerRun_closed_all_eof (ops : List HBOp) :
    hbServerRun true ops = ops.map (fun _ => HBResult.eof) := by
  induction ops with
  | nil => rfl
  | cons op ops ih => simp [hbServerRun, hbServerStep, ih]

theorem hbServerRun_length (ops : List HBOp) : ∀ (c : Bool),
    (hbServerRun c ops).length = ops.length := by
  induction ops with
  | nil =>
    intro c
    rfl
  | cons op ops ih =>
    intro c
    simp [hbServerRun, ih]

theorem hbServerRun_true_get (ops : List HBOp) (j : Nat)
    (hj : j < (hbServerRun true ops).length) :
    (hbServerRun true ops).get ⟨j, hj⟩ = HBResult.eof := by
  have hall : ∀ r ∈ hbServerRun true ops, r = HBResult.eof := by
    intro r hr
    rw [hbServerRun_closed_all_eof] at hr
    rcases List.mem_map.mp hr with ⟨x, _, hx⟩
    exact hx.symm
  exact hall _ (List.get_mem _ j hj)

theorem hbServerStep_not_success_closed (c : Bool) (op : HBOp)
    (h : (hbServerStep c op).2 ≠ HBResult.success) : (hbServerStep c op).1 = true := by
  cases c
  · cases op with
    | send o => cases o <;> simp_all [hbServerStep]
    | recv o => cases o <;> simp_all [hbServerStep]
  · rfl

theorem hbServerRun_fail_fast_aux (ops : List HBOp) : ∀ (c : Bool) (i j : Nat)
    (hi : i < (hbServerRun c ops).length) (hj : j < (hbServerRun c ops).length),
    i < j → (hbServerRun c ops).get ⟨i, hi⟩ ≠ HBResult.success →
    (hbServerRun c ops).get ⟨j, hj⟩ = HBResult.eof := by
  induction ops with
  | nil =>
    intro c i j hi
    simp [hbServerRun] at hi
  | cons op ops ih =>
    intro c i j hi hj hij herr
    have hlen : (hbServerRun c (op :: ops)).length =
        (hbServerRun (hbServerStep c op).1 ops).length + 1 := rfl
    cases j with
    | zero => omega
    | succ j' =>
      have hj' : j' < (hbServerRun (hbServerStep c op).1 ops).length := by omega
      cases i with
      | zero =>
        have hclosed := hbServerStep_not_success_closed c op herr
        show (hbServerRun (hbServerStep c op).1 ops).get ⟨j', hj'⟩ = HBResult.eof
        have heq : hbServerRun (hbServerStep c op).1 ops = hbServerRun true ops := by
          rw [hclosed]
        rw [List.get_of_eq heq]
        exact hbServerRun_true_get ops j' _
      | succ i' =>
        have hi' : i' < (hbServerRun (hbServerStep c op).1 ops).length := by omega
        show (hbServerRun (hbServerStep c op).1 ops).get ⟨j', hj'⟩ = HBResult.eof
        exact ih (hbServerStep c op).1 i' j' hi' hj' (by omega)
          (fun hsucc => herr hsucc)

/-- C7: the `heartbeatServer` wrapper never transfers data after its first
failure — in any sequence of `Send`/`Recv` operations starting from an open
wrapper, once some operation's result is not a success (a stream error, the
`ErrSendHeartbeatTimeout` deadline violation, or an `io.EOF` from an already
closed wrapper), every later `Send` and `Recv` returns `io.EOF`. -/
theorem heartbeatServer_fail_fast (ops : List HBOp) (i j : Nat)
    (hij : i < j) (hi : i < (hbServerRun false ops).length)
    (hj : j < (hbServerRun false ops).length)
    (herr : (hbServerRun false ops).get ⟨i, hi⟩ ≠ HBResult.success) :
    (hbServerRun false ops).get ⟨j, hj⟩ = HBResult.eof :=
  hbServerRun_fail_fast_aux ops false i j hi hj hij herr

/-- C7 witness: after a send deadline violation, a subsequent recv (with a
healthy underlying stream) and a subsequent send both return `io.EOF`. -/
theorem heartbeatServer_fail_fast_witness :
    hbServerRun false [.send .timedOut, .recv .ok, .send .ok] =
      [HBResult.sendTimeout, HBResult.eof, HBResult.eof] ∧
    (0 : Nat) < 2 ∧
    (hbServerRun false [.send .timedOut, .recv .ok, .send .ok]).get
      ⟨2, by decide⟩ = HBResult.eof :=
  ⟨by decide, by decide,
    heartbeatServer_fail_fast [.send .timedOut, .recv .ok, .send .ok] 0 2
      (by decide) (by decide) (by decide) (by decide)⟩

/-- The balance-range job rule (`core.Rule`). -/
inductive Rule where
  | leaderScatter
  | peerScatter
  | learnerScatter
  deriving Repr, DecidableEq

/-- The part of a `core.RegionInfo` the balance-range scheduler's
`transferPeer` consults: the stores holding a peer (`GetStoreIDs`) and the
leader's store. -/
structure BRRegion where
  storeIds : List Nat
  leaderStore : Nat
  deriving Repr, DecidableEq

/-- `balanceRangeSchedulerPlan`, reduced to the data `transferPeer` and
`shouldBalance` read: the selected source, the precomputed scores
(`scoreMap`, as the function `score`), the average score, the tolerance, the
job rule, the selected region, and the per-store operator influence for the
rule (`opInfluence.GetStoreInfluence(id).GetStoreInfluenceByRole(rule)`). -/
structure BRPlan where
  sourceId : Nat
  sourceScore : Int
  averageScore : Int
  tolerate : Int
  rule : Rule
  region : BRRegion
  score : Nat → Int
  influence : Nat → Int

/-- The in-place sign flip `if inf < 0 { inf = -inf }` used by
`shouldBalance` on both influences. -/
def absInt (x : Int) : Int := if x < 0 then -x else x

theorem absInt_eq_abs (x : Int) : absInt x = |x| := by
  unfold absInt
  split_ifs with h
  · rw [abs_of_neg h]
  · rw [abs_of_nonneg (by omega)]

/-- `balanceRangeSchedulerPlan.shouldBalance`, with the target id and its
score passed in (the loop sets `plan.target`/`plan.targetScore` before the
call). -/
def shouldBalance (p : BRPlan) (targetId : Nat) (targetScore : Int) : Bool :=
  let sourceInf := absInt (p.influence p.sourceId)
  -- to avoid scheduling too much, the source should move out one region, not two
  let sourceScore := p.sourceScore - sourceInf - p.tolerate
  let targetInf := absInt (p.influence targetId)
  let targetScore1 := targetScore + targetInf + p.tolerate
  -- the source score must be greater than the target score
  decide (sourceScore ≥ targetScore1)

/-- The operator kinds `transferPeer` can build. -/
inductive OpKind where
  | transferLeader
  | replaceLeaderPeer
  | movePeer
  deriving Repr, DecidableEq

/-- The operator `transferPeer` returns, reduced to its target store and
kind. -/
structure BROperator where
  target : Nat
  kind : OpKind
  deriving Repr, DecidableEq

/-- The candidate-target loop of `balanceRangeScheduler.transferPeer`
(`for i := range candidates.Stores`, indexing `len-i-1`, i.e. the reversed
candidate list): break once the target score exceeds the average, skip
targets failing `shouldBalance`, and build an operator for the first
survivor (`createOk` is whether the `operator.CreateXxx` constructor
succeeds; on failure the loop returns nil). -/
def transferPeerLoop (p : BRPlan) (createOk : Nat → Bool) :
    List Nat → Option BROperator
  | [] => none
  | t :: rest =>
    let targetScore := p.score t
    if targetScore > p.averageScore then none
    else if shouldBalance p t targetScore = false then transferPeerLoop p createOk rest
    else
      let exist := p.rule = Rule.leaderScatter ∧ t ∈ p.region.storeIds
      if createOk t then
        some { target := t,
               kind := if exist then .transferLeader
                 else if p.region.leaderStore = p.sourceId then .replaceLeaderPeer
                 else .movePeer }
      else none

/-- The candidate targets of `balanceRangeScheduler.transferPeer`: the
filter pipeline is the abstract `passesFilters` (store-state, special-use,
placement-safeguard filters) plus the explicit `NewExcludedFilter` built
from `excludeTargets` — every store holding a peer of the region, except in
LeaderScatter mode where only the leader's store is excluded. -/
def transferPeerCandidates (p : BRPlan) (dstStores : List Nat)
    (passesFilters : Nat → Bool) : List Nat :=
  let excludeTargets := if p.rule = Rule.leaderScatter
    then [p.region.leaderStore] else p.region.storeIds
  dstStores.filter (fun s => passesFilters s = true ∧ s ∉ excludeTargets)

/-- `balanceRangeScheduler.transferPeer`. -/
def transferPeer (p : BRPlan) (dstStores : List Nat) (passesFilters : Nat → Bool)
    (createOk : Nat → Bool) : Option BROperator :=
  transferPeerLoop p createOk (transferPeerCandidates p dstStores passesFilters).reverse

/-- Insertion step for the descending sort below. -/
def insertDescBy (key : Nat → Int) (x : Nat) : List Nat → List Nat
  | [] => [x]
  | y :: ys => if key x > key y then x :: y :: ys else y :: insertDescBy key x ys

/-- The `sort.Slice(sources, less)` call of `prepare` with
`less(i,j) = scoreᵢ + influenceᵢ > scoreⱼ + influenceⱼ`, modelled as a
comparison sort over the same relation (Go's sort algorithm is
unspecified). -/
def sortDescBy (key : Nat → Int) : List Nat → List Nat
  | [] => []
  | x :: xs => insertDescBy key x (sortDescBy key xs)

/-- The result of `balanceRangeScheduler.prepare`. -/
structure PrepResult where
  stores : List Nat
  scoreMap : Nat → Int
  averageScore : Int
  tolerate : Int
  totalScore : Int

/-- `balanceRangeScheduler.prepare` after source selection: `sources` is the
store list already chosen by `filter.SelectSourceStores` with the
engine-specific filters; `counts rule s kr` abstracts the cluster's
`GetStore{Leader,Peer,Learner}CountByRange(s, kr)` chosen by the job rule;
`adj` abstracts `t ↦ int64(float64(t) * adjustRatio)` — modelled from the
spec (`tolerate = max(1, totalScore · adjustRatio)`), the numeric constant
not being among the provided sources. -/
def prepare (counts : Rule → Nat → KeyRange → Int) (sources : List Nat)
    (influence : Nat → Int) (rule : Rule) (ranges : List KeyRange)
    (adj : Int → Int) : Except String PrepResult :=
  if sources.length ≤ 1 then .error "no store to select"
  else
    let scoreMap : Nat → Int := fun s => (ranges.map (fun kr => counts rule s kr)).sum
    let totalScore := (sources.map scoreMap).sum
    let sorted := sortDescBy (fun s => scoreMap s + influence s) sources
    let t0 := adj totalScore
    .ok { stores := sorted, scoreMap := scoreMap,
          averageScore := totalScore / sources.length,
          tolerate := if t0 < 1 then 1 else t0,
          totalScore := totalScore }

theorem transferPeerLoop_some (p : BRPlan) (createOk : Nat → Bool) :
    ∀ (l : List Nat) (op : BROperator), transferPeerLoop p createOk l = some op →
      op.target ∈ l ∧ shouldBalance p op.target (p.score op.target) = true ∧
      p.score op.target ≤ p.averageScore := by
  intro l
  induction l with
  | nil =>
    intro op h
    simp [transferPeerLoop] at h
  | cons t rest ih =>
    intro op h
    simp only [transferPeerLoop] at h
    by_cases h1 : p.score t > p.averageScore
    · rw [if_pos h1] at h
      exact Option.noConfusion h
    · rw [if_neg h1] at h
      by_cases h2 : shouldBalance p t (p.score t) = false
      · rw [if_pos h2] at h
        rcases ih op h with ⟨hmem, hbal, hle⟩
        exact ⟨List.mem_cons_of_mem t hmem, hbal, hle⟩
      · rw [if_neg h2] at h
        by_cases h3 : createOk t = true
        · rw [if_pos h3] at h
          have heq := Option.some.inj h
          rw [← heq]
          exact ⟨List.mem_cons_self t rest, by simpa using h2,
            show p.score t ≤ p.averageScore by omega⟩
        · rw [if_neg h3] at h
          exact Option.noConfusion h

/-- C8: `transferPeer` builds an operator only for a target that passes the
tolerance condition `sourceScore − |sourceInfluence| − tolerate ≥
targetScore + |targetInfluence| + tolerate`, whose score does not exceed the
average, and that is not excluded — any peer-holding store outside
LeaderScatter mode, only the leader's store in LeaderScatter mode; the
candidates are traversed as the reverse of the descending-sorted store list,
hence in ascending order; and `prepare` computes
`tolerate = max(1, adjustRatio applied to totalScore)`. -/
theorem balanceRange_transferPeer_spec :
    (∀ (p : BRPlan) (dst : List Nat) (f createOk : Nat → Bool) (op : BROperator),
      transferPeer p dst f createOk = some op →
      shouldBalance p op.target (p.score op.target) = true ∧
      p.score op.target ≤ p.averageScore ∧
      (p.rule = Rule.leaderScatter → op.target ≠ p.region.leaderStore) ∧
      (p.rule ≠ Rule.leaderScatter → op.target ∉ p.region.storeIds)) ∧
    (∀ (p : BRPlan) (t : Nat) (ts : Int),
      shouldBalance p t ts = true ↔
        p.sourceScore - |p.influence p.sourceId| - p.tolerate ≥
          ts + |p.influence t| + p.tolerate) ∧
    (∀ counts sources influence rule ranges adj r,
      prepare counts sources influence rule ranges adj = .ok r →
      r.tolerate = max 1 (adj r.totalScore)) ∧
    (∀ (p : BRPlan) (dst : List Nat) (f : Nat → Bool),
      dst.Pairwise (fun a b => p.score a ≥ p.score b) →
      (transferPeerCandidates p dst f).reverse.Pairwise
        (fun a b => p.score a ≤ p.score b)) := by
  refine ⟨?_, ?_, ?_, ?_⟩
  · intro p dst f createOk op h
    rcases transferPeerLoop_some p createOk _ op h with ⟨hmem, hbal, hle⟩
    rw [List.mem_reverse] at hmem
    rcases List.mem_filter.mp hmem with ⟨_, hcond⟩
    rw [decide_eq_true_eq] at hcond
    refine ⟨hbal, hle, ?_, ?_⟩
    · intro hrule hleader
      rw [hrule] at hcond
      simp only [if_pos rfl] at hcond
      exact hcond.2 (by rw [hleader]; exact List.mem_singleton.mpr rfl)
    · intro hrule hids
      rw [if_neg hrule] at hcond
      exact hcond.2 hids
  · intro p t ts
    simp only [shouldBalance, absInt_eq_abs, decide_eq_true_eq]
  · intro counts sources influence rule ranges adj r h
    simp only [prepare] at h
    split_ifs at h with h1 h2 <;>
    first
      | exact Except.noConfusion h
      | (have heq := Except.ok.inj h
         rw [← heq]
         dsimp only
         omega)
  · intro p dst f hsorted
    rw [List.pairwise_reverse]
    exact List.Pairwise.filter _ hsorted

/-- C8 witness: a concrete plan where the lone in-tolerance, non-excluded,
below-average candidate is selected. -/
theorem balanceRange_transferPeer_spec_witness :
    transferPeer
      { sourceId := 1, sourceScore := 10, averageScore := 5, tolerate := 1,
        rule := Rule.peerScatter, region := ⟨[1, 2], 1⟩,
        score := fun s => if s = 1 then 10 else if s =3 then 2 else 7,
        influence := fun _ => 0 }
      [2, 3] (fun _ => true) (fun _ => true) =
      some { target := 3, kind := OpKind.replaceLeaderPeer } ∧
    (10 : Int) - |(0 : Int)| - 1 ≥ 2 + |(0 : Int)| + 1 :=
  ⟨by decide, by
    have := (balanceRange_transferPeer_spec.1
      { sourceId := 1, sourceScore := 10, averageScore := 5, tolerate := 1,
        rule := Rule.peerScatter, region := ⟨[1, 2], 1⟩,
        score := fun s => if s = 1 then 10 else if s = 3 then 2 else 7,
        influence := fun _ => 0 }
      [2, 3] (fun _ => true) (fun _ => true)
      { target := 3, kind := OpKind.replaceLeaderPeer } (by decide)).1
    rw [(balanceRange_transferPeer_spec.2.1 _ 3 _)] at this
    simp only [show ((3 : Nat) = 1) = False by simp] at this
    exact this⟩

/-- `JobStatus`. -/
inductive JobStatus where
  | pending
  | running
  | finished
  | cancelled
  deriving Repr, DecidableEq

/-- `balanceRangeSchedulerJob`; times are `Int` instants in milliseconds,
with the `*time.Time` pointers `Start`/`Finish` as `Option Int`. -/
structure BRSJob where
  JobID : Nat
  Rule : PD.Rule
  Engine : String
  Timeout : Int
  Ranges : List KeyRange
  Alias : String
  Start : Option Int
  Finish : Option Int
  Create : Int
  Status : JobStatus
  deriving Repr, DecidableEq

/-- `balanceRangeSchedulerJob.isComplete`. -/
def BRSJob.isComplete (job : BRSJob) : Bool :=
  job.Status = JobStatus.finished ∨ job.Status = JobStatus.cancelled

/-- `balanceRangeSchedulerJob.expired` (non-nil receiver; `now` is passed in
for `time.Now()`). -/
def BRSJob.expired (job : BRSJob) (dur now : Int) : Bool :=
  match job.Finish with
  | none => false
  | some f => now - f > dur

/-- `reserveDuration = 7 * 24 * time.Hour`, in milliseconds. -/
def reserveDuration : Int := 604800000

/-- The errors the balance-range scheduler config operations return.
`saveFailed` carries the storage error from `conf.save()`. -/
inductive ConfErr where
  | saveFailed (msg : String)
  | jobExists
  | jobNotPending
  | jobNotRunning
  | cannotCancelCompleted (jobID : Nat)
  | configNotExist (jobID : Nat)
  deriving Repr, DecidableEq

/-- The message carried by each config error. -/
def ConfErr.message : ConfErr → String
  | .saveFailed m => m
  | .jobExists => "job already exists"
  | .jobNotPending => "the job is not pending"
  | .jobNotRunning => "the job is not running"
  | .cannotCancelCompleted jobID =>
      "The job:" ++ Nat.repr jobID ++ " has been completed and cannot be cancelled."
  | .configNotExist jobID => "the config does not exist: " ++ Nat.repr jobID

/-- `balanceRangeSchedulerConfig.cloneLocked`: a field-by-field deep copy of
every job (ranges copied element-wise). -/
def cloneLocked (jobs : List BRSJob) : List BRSJob :=
  jobs.map (fun job =>
    { Ranges := job.Ranges.map id, Rule := job.Rule, Engine := job.Engine,
      Timeout := job.Timeout, Alias := job.Alias, JobID := job.JobID,
      Start := job.Start, Status := job.Status, Create := job.Create,
      Finish := job.Finish })

/-- `balanceRangeSchedulerConfig.persistLocked`: clone the job list, apply
the update, and on a save error restore the clone and return the error.
`saveRes` is the outcome of `conf.save()` (`none` = success). -/
def persistLocked (jobs : List BRSJob) (updateFn : List BRSJob → List BRSJob)
    (saveRes : Option String) : List BRSJob × Option ConfErr :=
  let originJobs := cloneLocked jobs
  let jobs1 := updateFn jobs
  match saveRes with
  | some e => (originJobs, some (.saveFailed e))
  | none => (jobs1, none)

/-- `balanceRangeSchedulerConfig.addJob`. -/
def addJob (jobs : List BRSJob) (job : BRSJob) (saveRes : Option String) :
    List BRSJob × Option ConfErr :=
  if jobs.any (fun c => !c.isComplete && job.Alias == c.Alias) then
    (jobs, some .jobExists)
  else
    let jobID := match jobs.getLast? with
      | none => 1
      | some l => l.JobID + 1
    let job1 := { job with Status := JobStatus.pending, JobID := jobID }
    persistLocked jobs (fun js => js ++ [job1]) saveRes

/-- Update the first job with the given id (the Go loop mutates the first
matching element and returns inside the loop). -/
def updateFirstJob (jobID : Nat) (f : BRSJob → BRSJob) : List BRSJob → List BRSJob
  | [] => []
  | j :: js => if j.JobID == jobID then f j :: js else j :: updateFirstJob jobID f js

/-- `balanceRangeSchedulerConfig.deleteJob` (`now` stands for the
`time.Now()` taken inside the update closure). -/
def deleteJob (jobs : List BRSJob) (jobID : Nat) (now : Int)
    (saveRes : Option String) : List BRSJob × Option ConfErr :=
  match jobs.find? (fun j => j.JobID == jobID) with
  | none => (jobs, some (.configNotExist jobID))
  | some job =>
    if job.isComplete then (jobs, some (.cannotCancelCompleted jobID))
    else
      persistLocked jobs (updateFirstJob jobID (fun j =>
        { j with Status := JobStatus.cancelled,
                 Start := if j.Start = none then some now else j.Start,
                 Finish := some now })) saveRes

/-- `balanceRangeSchedulerConfig.begin` (the Go method indexes
`conf.jobs[index]`, so the index is in bounds by the caller's contract). -/
def begin (jobs : List BRSJob) (index : Nat) (h : index < jobs.length)
    (now : Int) (saveRes : Option String) : List BRSJob × Option ConfErr :=
  let job := jobs.get ⟨index, h⟩
  if job.Status ≠ JobStatus.pending then (jobs, some .jobNotPending)
  else
    persistLocked jobs (fun js =>
      js.set index { job with Start := some now, Status := JobStatus.running }) saveRes

/-- `balanceRangeSchedulerConfig.finish`. -/
def finish (jobs : List BRSJob) (index : Nat) (h : index < jobs.length)
    (now : Int) (saveRes : Option String) : List BRSJob × Option ConfErr :=
  let job := jobs.get ⟨index, h⟩
  if job.Status ≠ JobStatus.running then (jobs, some .jobNotRunning)
  else
    persistLocked jobs (fun js =>
      js.set index { job with Finish := some now, Status := JobStatus.finished }) saveRes

/-- `balanceRangeSchedulerConfig.gc`: the scan from the front stops at the
first job that is not both complete and expired, so the garbage-collected
slice is the maximal such prefix (`gcIdx + 1` elements); with nothing to
collect the method returns nil without persisting. -/
def gc (jobs : List BRSJob) (now : Int) (saveRes : Option String) :
    List BRSJob × Option ConfErr :=
  let gcLen := (jobs.takeWhile (fun job =>
    job.isComplete && job.expired reserveDuration now)).length
  if gcLen = 0 then (jobs, none)
  else persistLocked jobs (fun js => js.drop gcLen) saveRes

theorem cloneLocked_eq_self (jobs : List BRSJob) : cloneLocked jobs = jobs := by
  unfold cloneLocked
  have : ∀ job : BRSJob,
      ({ Ranges := job.Ranges.map id, Rule := job.Rule, Engine := job.Engine,
         Timeout := job.Timeout, Alias := job.Alias, JobID := job.JobID,
         Start := job.Start, Status := job.Status, Create := job.Create,
         Finish := job.Finish } : BRSJob) = job := by
    intro job
    cases job
    simp
  simp [this]

/-- C9: `addJob` fails with the "job already exists" error exactly when some
non-completed stored job has the requested alias (completed jobs with the
same alias do not block), and a successful add appends the job with status
pending and `JobID` one more than the last stored job's id (`1` on an empty
list). -/
theorem addJob_spec (jobs : List BRSJob) (job : BRSJob) :
    (∀ saveRes, ((addJob jobs job saveRes).2 = some ConfErr.jobExists ↔
      ∃ c ∈ jobs, c.isComplete = false ∧ job.Alias = c.Alias)) ∧
    ConfErr.message .jobExists = "job already exists" ∧
    ((¬ ∃ c ∈ jobs, c.isComplete = false ∧ job.Alias = c.Alias) →
      ∀ jid, jid = (match jobs.getLast? with
          | none => 1
          | some l => l.JobID + 1) →
      addJob jobs job none =
        (jobs ++ [{ job with Status := JobStatus.pending, JobID := jid }], none) ∧
      (jobs = [] → jid = 1) ∧
      (∀ l, jobs.getLast? = some l → jid = l.JobID + 1)) := by
  have hany : (jobs.any (fun c => !c.isComplete && job.Alias == c.Alias)) = true ↔
      ∃ c ∈ jobs, c.isComplete = false ∧ job.Alias = c.Alias := by
    rw [List.any_eq_true]
    constructor
    · rintro ⟨c, hc, hcond⟩
      rw [Bool.and_eq_true, Bool.not_eq_true', beq_iff_eq] at hcond
      exact ⟨c, hc, hcond.1, hcond.2⟩
    · rintro ⟨c, hc, h1, h2⟩
      refine ⟨c, hc, ?_⟩
      rw [Bool.and_eq_true, Bool.not_eq_true', beq_iff_eq]
      exact ⟨h1, h2⟩
  refine ⟨?_, rfl, ?_⟩
  · intro saveRes
    unfold addJob
    by_cases hdup : (jobs.any (fun c => !c.isComplete && job.Alias == c.Alias)) = true
    · rw [if_pos hdup]
      simpa using hany.mp hdup
    · rw [if_neg hdup]
      rw [← hany]
      simp only [hdup, iff_false]
      unfold persistLocked
      cases saveRes <;> simp
  · intro hdup jid hjid
    have hdup' : ¬ ((jobs.any (fun c => !c.isComplete && job.Alias == c.Alias)) = true) := by
      intro hc
      exact hdup (hany.mp hc)
    unfold addJob
    rw [if_neg hdup']
    refine ⟨?_, ?_, ?_⟩
    · unfold persistLocked
      rw [cloneLocked_eq_self]
      simp [← hjid]
    · intro hnil
      rw [hnil] at hjid
      simpa using hjid
    · intro l hl
      rw [hl] at hjid
      simpa using hjid

/-- A cancelled stored job with alias `T1` and id 7. -/
def jobT1Cancelled : BRSJob :=
  ⟨7, .leaderScatter, "tikv", 1, [], "T1", none, some 0, 0, .cancelled⟩

/-- A running stored job with alias `T1` and id 7. -/
def jobT1Running : BRSJob :=
  ⟨7, .leaderScatter, "tikv", 1, [], "T1", none, none, 0, .running⟩

/-- A fresh request job with alias `T1`. -/
def jobT1New : BRSJob :=
  ⟨0, .leaderScatter, "tikv", 1, [], "T1", none, none, 1, .running⟩

/-- C9 witness: a completed job with the same alias does not block the add
(the new job gets id 8 and status pending), while a running job with the
same alias does block it. -/
theorem addJob_spec_witness :
    addJob [jobT1Cancelled] jobT1New none =
      ([jobT1Cancelled, ⟨8, .leaderScatter, "tikv", 1, [], "T1", none, none, 1,
        .pending⟩], none) ∧
    (addJob [jobT1Running] jobT1New none).2 = some ConfErr.jobExists :=
  ⟨((addJob_spec [jobT1Cancelled] jobT1New).2.2 (by decide) 8 (by decide)).1,
    ((addJob_spec [jobT1Running] jobT1New).1 none).mpr
      ⟨jobT1Running, List.mem_singleton.mpr rfl, by decide, rfl⟩⟩

/-- C10: every mutation of the job list goes through `persistLocked`, which
clones the prior list, applies the update, and on a save error restores the
clone (an unchanged list, since the clone is exact) and returns the error —
so `addJob`, `deleteJob`, `begin`, `finish` and `gc` leave the in-memory job
list unchanged whenever the persistence step fails. -/
theorem persistLocked_atomic :
    (∀ jobs, cloneLocked jobs = jobs) ∧
    (∀ jobs updateFn e, persistLocked jobs updateFn (some e) =
      (jobs, some (ConfErr.saveFailed e))) ∧
    (∀ jobs job e, (addJob jobs job (some e)).1 = jobs) ∧
    (∀ jobs jobID now e, (deleteJob jobs jobID now (some e)).1 = jobs) ∧
    (∀ jobs index h now e, (begin jobs index h now (some e)).1 = jobs) ∧
    (∀ jobs index h now e, (finish jobs index h now (some e)).1 = jobs) ∧
    (∀ jobs now e, (gc jobs now (some e)).1 = jobs) := by
  have hpersist : ∀ jobs updateFn e, persistLocked jobs updateFn (some e) =
      (jobs, some (ConfErr.saveFailed e)) := by
    intro jobs updateFn e
    unfold persistLocked
    rw [cloneLocked_eq_self]
  refine ⟨cloneLocked_eq_self, hpersist, ?_, ?_, ?_, ?_, ?_⟩
  · intro jobs job e
    unfold addJob
    split_ifs with h1
    · rfl
    · rw [hpersist]
  · intro jobs jobID now e
    unfold deleteJob
    cases jobs.find? (fun j => j.JobID == jobID) with
    | none => rfl
    | some job =>
      simp only
      split_ifs with h1
      · rfl
      · rw [hpersist]
  · intro jobs index h now e
    unfold begin
    dsimp only
    split_ifs with h1
    · rfl
    · rw [hpersist]
  · intro jobs index h now e
    unfold finish
    dsimp only
    split_ifs with h1
    · rfl
    · rw [hpersist]
  · intro jobs now e
    unfold gc
    dsimp only
    split_ifs with h1
    · rfl
    · rw [hpersist]

/-- A running stored job with alias `J` and id 3. -/
def jobJRunning : BRSJob :=
  ⟨3, .peerScatter, "tikv", 1, [], "J", some 0, none, 0, .running⟩

/-- C10 witness: a failed save leaves a concrete one-job list unchanged
through `deleteJob`. -/
theorem persistLocked_atomic_witness :
    (deleteJob [jobJRunning] 3 9 (some "etcd txn failed")).1 = [jobJRunning] :=
  persistLocked_atomic.2.2.2.1 [jobJRunning] 3 9 "etcd txn failed"

end PD
